
import Mathlib

set_option maxRecDepth 10000

/-!
Verification development for the `cloud_lite` repository
(`src/aws_monitor.py`, `src/ai_analyzer.py`).

The Python code is shallowly embedded:

* Python floats are idealized as exact rationals (`ℚ`).  Because the
  ambient library seals `Rat.add`/`Rat.mul`/... against unfolding, the
  embedding performs its arithmetic through `mkRat`-based operations
  (`qAdd`, `qSub`, `qMul`, `qDiv`) that the kernel can evaluate; the
  lemmas `qAdd_eq`, `qSub_eq`, `qMul_eq`, `qDiv_eq` prove that they are
  exactly the field operations of `ℚ`, so all theorems can be read with
  ordinary `+ - * /`.
* Python dict values occurring in cost records are modelled by `JVal`
  (`null` covers both an absent key and an explicit `None`, which
  `dict.get` cannot distinguish); a cost record keeps the three keys the
  code reads (`date`, `service`, `cost`), each optional.
* Fallible Python code (`float(...)` conversion inside `build_prompt`)
  is modelled with `Except String`.
* `sorted(...)` is Timsort, a stable sort; it is modelled by the stable
  `List.insertionSort` (any two stable sorts of the same total preorder
  agree).  CPython raises `TypeError` during `sorted` exactly when the
  key sequence mixes incomparable values (every adjacent pair is
  examined by run detection / binary insertion), which the embedding
  captures with the `sortable` predicate.
-/

/-- Scalar Python values that can sit in a cost-record dict.
`null` stands for both "key absent" and "value is None". -/
inductive JVal where
  | null : JVal
  | num : ℚ → JVal
  | str : String → JVal
deriving DecidableEq

/-- A cost record, the dict shape consumed by `build_prompt`
(`src/ai_analyzer.py`): keys `date`, `service`, `cost`, each possibly
absent. -/
structure CostRecord where
  date : Option JVal
  service : Option JVal
  cost : Option JVal
deriving DecidableEq

/-- Decidable equality of `Except` results (kernel-computable), used to
evaluate the embedded fallible functions on concrete inputs. -/
instance exceptDecEq {ε α : Type} [DecidableEq ε] [DecidableEq α] : DecidableEq (Except ε α) :=
  fun x y =>
    match x, y with
    | Except.ok a, Except.ok b =>
      if h : a = b then Decidable.isTrue (congrArg Except.ok h)
      else Decidable.isFalse (fun hc => h (Except.ok.inj hc))
    | Except.error a, Except.error b =>
      if h : a = b then Decidable.isTrue (congrArg Except.error h)
      else Decidable.isFalse (fun hc => h (Except.error.inj hc))
    | Except.ok _, Except.error _ => Decidable.isFalse (fun hc => Except.noConfusion hc)
    | Except.error _, Except.ok _ => Decidable.isFalse (fun hc => Except.noConfusion hc)

/-! ### Kernel-computable rational arithmetic

`mkRat` (integer numerator / natural denominator, normalized) evaluates
inside the kernel, unlike the sealed `Rat.add` etc.  The four operations
below are proved equal to the `ℚ` field operations. -/

/-- Addition on `ℚ` via `mkRat`; equals `a + b` (`qAdd_eq`). -/
def qAdd (a b : ℚ) : ℚ := mkRat (a.num * (b.den : ℤ) + b.num * (a.den : ℤ)) (a.den * b.den)

/-- Subtraction on `ℚ` via `mkRat`; equals `a - b` (`qSub_eq`). -/
def qSub (a b : ℚ) : ℚ := mkRat (a.num * (b.den : ℤ) - b.num * (a.den : ℤ)) (a.den * b.den)

/-- Multiplication on `ℚ` via `mkRat`; equals `a * b` (`qMul_eq`). -/
def qMul (a b : ℚ) : ℚ := mkRat (a.num * b.num) (a.den * b.den)

/-- Division on `ℚ` via `mkRat`; equals `a / b` (`qDiv_eq`), with the
`ℚ` convention that division by zero yields zero. -/
def qDiv (a b : ℚ) : ℚ :=
  if 0 ≤ b.num then mkRat (a.num * (b.den : ℤ)) (a.den * b.num.natAbs)
  else mkRat (-(a.num * (b.den : ℤ))) (a.den * b.num.natAbs)

/-- Sum of a list of rationals, folded with `qAdd` (kernel-computable). -/
def qSum : List ℚ → ℚ
  | [] => 0
  | x :: xs => qAdd x (qSum xs)

/-! ### Decimal numerals

`json.dumps` and Python string formatting render numbers in decimal.
The renderers below are fuel-based so that the kernel can evaluate them;
the parsers are exact left inverses (proved), which is what the
round-trip claim about the serialized statistics needs. -/

/-- Decimal digit to its character, `0 ↦ '0'`, ..., `9 ↦ '9'`. -/
def digitChar (d : ℕ) : Char := Char.ofNat (48 + d)

/-- Character to decimal digit value, `'0' ↦ 0`, ..., `'9' ↦ 9`. -/
def charVal (c : Char) : ℕ := c.toNat - 48

/-- Decimal digit characters of `n`, most significant first; `fuel`
bounds the recursion (any `fuel ≥ n` is exact). -/
def natDigitsAux : ℕ → ℕ → List Char
  | 0, _ => []
  | fuel + 1, n => if n = 0 then [] else natDigitsAux fuel (n / 10) ++ [digitChar (n % 10)]

/-- Decimal rendering of a natural number. -/
def natRepr (n : ℕ) : String := if n = 0 then "0" else String.mk (natDigitsAux (n + 1) n)

/-- Decimal rendering of an integer (with leading minus sign). -/
def intRepr (i : ℤ) : String := if i < 0 then "-" ++ natRepr i.natAbs else natRepr i.toNat

/-- Rendering of a rational: plain integer when the denominator is 1,
`num/den` otherwise.  (The Python code prints floats in decimal; the
exact-rational idealization renders the reduced fraction instead.) -/
def renderQ (q : ℚ) : String :=
  if q.den = 1 then intRepr q.num else intRepr q.num ++ "/" ++ natRepr q.den

/-- Parse a run of decimal digit characters (most significant first). -/
def parseNatChars (cs : List Char) : ℕ := cs.foldl (fun a c => 10 * a + charVal c) 0

/-- Parse an optionally minus-signed run of decimal digits. -/
def parseIntChars : List Char → ℤ
  | [] => 0
  | c :: cs => if c = '-' then -(parseNatChars cs : ℤ) else (parseNatChars (c :: cs) : ℤ)

/-- Parse the output format of `renderQ`. -/
def parseRatChars (cs : List Char) : ℚ :=
  match cs.dropWhile (fun c => c ≠ '/') with
  | [] => (parseIntChars cs : ℚ)
  | _ :: denPart => mkRat (parseIntChars (cs.takeWhile (fun c => c ≠ '/'))) (parseNatChars denPart)

/-! ### Python `float(...)` on strings

`build_prompt` runs `float(r.get("cost", 0.0))` on every retained cost
value; on a non-numeric string this raises `ValueError`.  Plain decimal
notation (optional sign, digits, at most one decimal point) is parsed;
exponent/`inf`/`nan`/underscore forms are outside the model.  Error
messages are collapsed to fixed strings. -/

/-- Negation on `ℚ` via `mkRat`; equals `-a` (`qNeg_eq`). -/
def qNeg (a : ℚ) : ℚ := mkRat (-a.num) a.den

/-- Parse an unsigned decimal literal (digits with at most one point,
at least one digit). -/
def parseUFloat (cs : List Char) : Option ℚ :=
  if cs.all (fun c => c.isDigit || c = '.') && cs.countP (fun c => c = '.') ≤ 1
      && !(cs.filter (fun c => c.isDigit)).isEmpty then
    some (mkRat (parseNatChars (cs.filter (fun c => c.isDigit)))
      (10 ^ ((cs.dropWhile (fun c => c ≠ '.')).drop 1).length))
  else none

/-- Model of Python `float(s)` for a string `s`. -/
def pyFloatOfString (s : String) : Option ℚ :=
  match s.data with
  | '-' :: rest => (parseUFloat rest).map qNeg
  | '+' :: rest => parseUFloat rest
  | _ => parseUFloat s.data

/-- Model of Python `float(value)` on the scalar values a cost field
can hold (`None` raises `TypeError`, a non-numeric string raises
`ValueError`). -/
def pyFloat : JVal → Except String ℚ
  | .num q => .ok q
  | .str s =>
    match pyFloatOfString s with
    | some q => .ok q
    | none => .error "ValueError: could not convert string to float"
  | .null => .error "TypeError: float() argument must be a string or a real number"

/-! ### `src/aws_monitor.py`: anomaly detection, totals, alert message -/

/-- `detect_anomaly(cost_today, cost_yesterday, threshold=1.5)`
(src/aws_monitor.py lines 91–94): `False` on a zero baseline, otherwise
the ratio test `cost_today / cost_yesterday >= threshold`. -/
def detect_anomaly (cost_today cost_yesterday : ℚ) (threshold : ℚ := mkRat 3 2) : Bool :=
  if cost_yesterday = 0 then false
  else threshold ≤ qDiv cost_today cost_yesterday

/-- One `Groups` entry of a Cost Explorer result: its
`Metrics.UnblendedCost.Amount`, idealized as the rational the code
obtains from `float(...)` on the decimal-string amount. -/
structure CostGroup where
  amount : ℚ
deriving DecidableEq

/-- One `ResultsByTime` entry: its list of service groups. -/
structure TimePeriodResult where
  groups : List CostGroup
deriving DecidableEq

/-- A Cost Explorer `get_cost_and_usage` response, reduced to the parts
`calculate_total_cost` reads. -/
structure CEResponse where
  resultsByTime : List TimePeriodResult
deriving DecidableEq

/-- `calculate_total_cost(response)` (src/aws_monitor.py lines 81–89):
`0.0` when `ResultsByTime` is empty, otherwise the accumulated sum of
the group amounts of `results[0]` only. -/
def calculate_total_cost (response : CEResponse) : ℚ :=
  match response.resultsByTime with
  | [] => 0
  | day :: _ => day.groups.foldl (fun total g => qAdd total g.amount) 0

/-- Left-pad a string with `'0'` to length `d`. -/
def padZeros (s : String) (d : ℕ) : String :=
  String.mk (List.replicate (d - s.data.length) '0') ++ s

/-- Round to the nearest integer, ties to even (Python float formatting
rounds half to even). -/
def roundHalfEven (q : ℚ) : ℤ :=
  let f : ℤ := q.num.fdiv (q.den : ℤ)
  let r : ℚ := qSub q (mkRat f 1)
  if r < mkRat 1 2 then f
  else if mkRat 1 2 < r then f + 1
  else if f % 2 = 0 then f else f + 1

/-- Model of the Python format spec `:.Nf`: fixed-point rendering with
`d` digits after the decimal point. -/
def fmtFixed (q : ℚ) (d : ℕ) : String :=
  let m : ℤ := roundHalfEven (qMul q (mkRat (10 ^ d) 1))
  let sign : String := if m < 0 then "-" else ""
  if d = 0 then sign ++ natRepr m.natAbs
  else sign ++ natRepr (m.natAbs / 10 ^ d) ++ "." ++ padZeros (natRepr (m.natAbs % 10 ^ d)) d

/-- The alert message `main` builds when `detect_anomaly` fires
(src/aws_monitor.py lines 122–127): the ratio to two decimal places,
then yesterday's and today's totals to four decimal places. -/
def alert_message (prev_cost today_total : ℚ) : String :=
  "🚨 AWS 비용 이상 감지!\n" ++
    "전일 대비 " ++ fmtFixed (qDiv today_total prev_cost) 2 ++ "배 증가\n" ++
    "어제: " ++ fmtFixed prev_cost 4 ++ " USD → 오늘: " ++ fmtFixed today_total 4 ++ " USD"

/-- The anomaly-alert step of `main`'s loop body (src/aws_monitor.py
lines 120–128): the message handed to `send_alert`, or `none` when no
alert fires. -/
def main_alert (prev_cost today_total : ℚ) : Option String :=
  if detect_anomaly today_total prev_cost (mkRat 3 2) then
    some (alert_message prev_cost today_total)
  else none

/-! ### `build_prompt`: sorting (`sorted(cost_rows, key=lambda r: r.get("date", ""))`)

Python compares strings by code point, lexicographically; the core
library's `String` order does not evaluate inside the kernel, so the
embedding uses its own structural lexicographic comparison. -/

/-- Strict code-point-lexicographic order on character lists (Python
`str.__lt__`). -/
def charListLt : List Char → List Char → Bool
  | [], [] => false
  | [], _ :: _ => true
  | _ :: _, [] => false
  | a :: as, b :: bs =>
    if a.toNat < b.toNat then true
    else if b.toNat < a.toNat then false
    else charListLt as bs

/-- Python `s <= t` on strings. -/
def strLe (s t : String) : Bool := !(charListLt t.data s.data)

/-- The sort key `r.get("date", "")` of `build_prompt`. -/
def dateKey (r : CostRecord) : JVal := r.date.getD (JVal.str "")

/-- Python `<`-comparability of two sort keys: strings compare with
strings, numbers with numbers; `None` compares with nothing (itself
included). -/
def jvalComparable : JVal → JVal → Bool
  | JVal.str _, JVal.str _ => true
  | JVal.num _, JVal.num _ => true
  | _, _ => false

/-- Whether `sorted(cost_rows, key=...)` succeeds.  CPython's sort
raises `TypeError` exactly when it compares two incomparable keys;
with disjoint comparability classes this happens on a list of length
at least two iff some pair of keys is incomparable (a mixed-class list
always has an adjacent mixed pair, and run detection / binary
insertion compares it). -/
def sortable (rows : List CostRecord) : Bool :=
  rows.length ≤ 1 ||
    rows.all (fun r => rows.all (fun r2 => jvalComparable (dateKey r) (dateKey r2)))

/-- Total order on sort keys for the embedded stable sort: Python `<=`
inside each comparability class, and an arbitrary total extension
(`null < num < str`) across classes — the extension is never exercised
on a `sortable` list. -/
def keyLe : JVal → JVal → Bool
  | JVal.null, _ => true
  | JVal.num _, JVal.null => false
  | JVal.num a, JVal.num b => a ≤ b
  | JVal.num _, JVal.str _ => true
  | JVal.str _, JVal.null => false
  | JVal.str _, JVal.num _ => false
  | JVal.str a, JVal.str b => strLe a b

/-- Record comparison by date key, the order `sorted` uses. -/
def RecordLe (a b : CostRecord) : Prop := keyLe (dateKey a) (dateKey b) = true

instance decidableRecordLe : DecidableRel RecordLe := fun a b =>
  inferInstanceAs (Decidable (keyLe (dateKey a) (dateKey b) = true))

/-- `rows_sorted` of `build_prompt` (src/ai_analyzer.py lines 31–34):
the stable sort by date key when sorting succeeds, otherwise (the
`except Exception` branch) the original order.  `List.insertionSort`
is stable, as is Timsort, so the two agree on `sortable` input. -/
def sortRows (rows : List CostRecord) : List CostRecord :=
  if sortable rows then rows.insertionSort RecordLe else rows

/-! ### `build_prompt`: cost extraction and summary statistics -/

/-- `r.get("cost")`: `null` for an absent key or an explicit `None`. -/
def getCost (r : CostRecord) : JVal := r.cost.getD JVal.null

/-- The comprehension
`[float(r.get("cost", 0.0)) for r in rows_sorted if r.get("cost") is not None]`
(src/ai_analyzer.py line 37): records with a `null` cost are skipped,
and the first failing `float(...)` raises. -/
def costsExtract : List CostRecord → Except String (List ℚ)
  | [] => Except.ok []
  | r :: rs =>
    if getCost r = JVal.null then costsExtract rs
    else
      match pyFloat (getCost r), costsExtract rs with
      | Except.error e, _ => Except.error e
      | Except.ok _, Except.error e => Except.error e
      | Except.ok q, Except.ok qs => Except.ok (q :: qs)

/-- The `summary_stats` dict of `build_prompt`.  The code stores
`stdev = statistics.pstdev(costs)`; the embedding carries its square
`stdev_sq` (the population variance) so the structure stays in exact
arithmetic — the stdev itself is `Real.sqrt stdev_sq` in the
theorems. -/
structure SummaryStats where
  count : ℕ
  total : ℚ
  mean : ℚ
  stdev_sq : ℚ
deriving DecidableEq

/-- `statistics.mean(costs)`: `sum / len`. -/
def listMean (costs : List ℚ) : ℚ := qDiv (qSum costs) (mkRat (costs.length : ℤ) 1)

/-- The square of `statistics.pstdev(costs)`: population variance,
squared-deviation sum divided by `len(costs)` (not `len - 1`). -/
def pvariance (costs : List ℚ) : ℚ :=
  qDiv (qSum (costs.map (fun x => qMul (qSub x (listMean costs)) (qSub x (listMean costs)))))
    (mkRat (costs.length : ℤ) 1)

/-- The `summary_stats` computation of `build_prompt`
(src/ai_analyzer.py lines 38–50). -/
def summaryStats (costs : List ℚ) : SummaryStats :=
  if costs.isEmpty then ⟨0, 0, 0, 0⟩
  else
    { count := costs.length
      total := qSum costs
      mean := listMean costs
      stdev_sq := if 1 < costs.length then pvariance costs else 0 }

/-! ### `build_prompt`: JSON rendering and the prompt text

`json.dumps(..., ensure_ascii=False, indent=2)` layout is reproduced
for the three-key records and the four-key stats dict.  Literal braces
are written with `\x7b`/`\x7d` escapes throughout. -/

/-- Join strings with a separator (kernel-computable
`String.intercalate`). -/
def joinSep (sep : String) : List String → String
  | [] => ""
  | [s] => s
  | s :: rest => s ++ sep ++ joinSep sep rest

/-- JSON escaping of one character (`json.dumps` with
`ensure_ascii=False`): backslash, quote and the common control
characters; other characters pass through. -/
def jsonEscapeChar (c : Char) : List Char :=
  if c = '"' then ['\\', '"']
  else if c = '\\' then ['\\', '\\']
  else if c = '\n' then ['\\', 'n']
  else if c = '\t' then ['\\', 't']
  else if c = '\r' then ['\\', 'r']
  else [c]

/-- JSON string-body escaping. -/
def jsonEscape (s : String) : String := String.mk (s.data.flatMap jsonEscapeChar)

/-- JSON rendering of a scalar value. -/
def renderJVal : JVal → String
  | JVal.null => "null"
  | JVal.num q => renderQ q
  | JVal.str s => "\"" ++ jsonEscape s ++ "\""

/-- The `"key": value` lines of one record, in the key order the code
builds its dicts (`date`, `service`, `cost`); absent keys are not
serialized. -/
def recordFields (r : CostRecord) : List String :=
  (match r.date with
    | some v => ["\"date\": " ++ renderJVal v]
    | none => []) ++
  (match r.service with
    | some v => ["\"service\": " ++ renderJVal v]
    | none => []) ++
  (match r.cost with
    | some v => ["\"cost\": " ++ renderJVal v]
    | none => [])

/-- `json.dumps` of one record at `indent=2`, nested inside the rows
array. -/
def renderRecord (r : CostRecord) : String :=
  if (recordFields r).isEmpty then "\x7b\x7d"
  else "\x7b\n    " ++ joinSep ",\n    " (recordFields r) ++ "\n  \x7d"

/-- `json.dumps(rows_sorted, ensure_ascii=False, indent=2)`. -/
def renderRows (rows : List CostRecord) : String :=
  if rows.isEmpty then "[]"
  else "[\n  " ++ joinSep ",\n  " (rows.map renderRecord) ++ "\n]"

/-- The constant pieces of the serialized stats dict
(`json.dumps(summary_stats, ensure_ascii=False, indent=2)` layout). -/
def statsLit1 : String := "\x7b\n  \"count\": "

/-- Separator before the `total` entry of the stats dict. -/
def statsLit2 : String := ",\n  \"total\": "

/-- Separator before the `mean` entry of the stats dict. -/
def statsLit3 : String := ",\n  \"mean\": "

/-- Separator before the `stdev` entry of the stats dict. -/
def statsLit4 : String := ",\n  \"stdev\": "

/-- Closing piece of the stats dict. -/
def statsLit5 : String := "\n\x7d"

/-- `json.dumps(summary_stats, ensure_ascii=False, indent=2)`.  The
`stdev` entry serializes the embedding's exact `stdev_sq` (the code
prints the float square root of this value). -/
def renderStats (s : SummaryStats) : String :=
  statsLit1 ++ natRepr s.count ++ statsLit2 ++ renderQ s.total ++ statsLit3 ++
    renderQ s.mean ++ statsLit4 ++ renderQ s.stdev_sq ++ statsLit5

/-- The constant prompt text before the rows block (the f-string of
src/ai_analyzer.py lines 52–71; the leading newline removed by the
final `.strip()` is pre-applied). -/
def promptHeader : String :=
  "당신은 AWS 비용 분석 전문가입니다. 아래는 AWS 서비스별/일자별 비용 데이터입니다.\n" ++
  "목표: 한국어로 이해하기 쉬운 비용 분석 리포트를 만드세요. 포맷은 자유지만 아래 항목을 반드시 포함하세요:\n" ++
  "  1) 이상 비용(Anomaly) 감지: 어떤 서비스/일자에서 평소보다 급증 또는 급감했는지 식별하고, 근거(숫자 비교: 전일 대비, 평균 대비 등)를 함께 표기하세요.\n" ++
  "  2) 전체 추세 요약: 최근 기간의 총 비용 추세(증가/감소/안정)와 주요 원인으로 추정되는 서비스들을 요약하세요.\n" ++
  "  3) 추가 확인 항목 제안: 운영팀이 확인해야 할 구체적인 액션 아이템(예: 특정 로그/리소스 확인, 예약 인스턴스/스팟 사용 확인, S3 데이터 전송량 점검 등).\n" ++
  "  4) (선택) 비용 절감 아이디어가 있으면 간략히 제안하세요.\n\n" ++
  "입력 데이터(정렬된 JSON)와 간단 통계는 아래에 포함됩니다. 숫자는 한국어로 설명하되, 중요한 수치는 괄호안에 원본 숫자를 포함하세요.\n\n" ++
  "간단한 포맷 제안(권장):\n" ++
  "- 요약(1-2문장)\n" ++
  "- 주요 이상치(항목별, 한두문장 + 수치)\n" ++
  "- 추세 및 원인(한두문단)\n" ++
  "- 권장 확인 항목(번호 목록)\n" ++
  "- 비용 절감 아이디어(선택)\n\n" ++
  "아래는 데이터와 간단 통계입니다.\n\n" ++
  "=== COST_ROWS_JSON START ===\n"

/-- The constant prompt text between the rows block and the stats
block (src/ai_analyzer.py lines 73–75). -/
def promptMid : String :=
  "\n=== COST_ROWS_JSON END ===\n\n=== SUMMARY_STATS START ===\n"

/-- The constant prompt text after the stats block
(src/ai_analyzer.py lines 77–82; the trailing newline removed by the
final `.strip()` is pre-applied). -/
def promptFooter : String :=
  "\n=== SUMMARY_STATS END ===\n\n" ++
  "주의:\n" ++
  "- 분석은 주어진 데이터만 기반하여 추정으로 제시하세요. (확인 필요 시 \x27추정\x27이라고 표기)\n" ++
  "- 결과는 한국어로 출력하세요."

/-- The prompt assembled from the already-sorted rows and the stats
(the interpolations are interior, so `.strip()` only removes the
constant head/tail newlines, pre-applied above). -/
def promptText (rs : List CostRecord) (s : SummaryStats) : String :=
  promptHeader ++ renderRows rs ++ promptMid ++ renderStats s ++ promptFooter

/-- `build_prompt(cost_rows)` (src/ai_analyzer.py lines 24–83).
`Except.error` models an exception escaping the function — the only
possible one is `float(...)` on a malformed cost value, since the sort
is guarded by `try/except` and everything else is total. -/
def build_prompt (cost_rows : List CostRecord) : Except String String :=
  match costsExtract (sortRows cost_rows) with
  | Except.error e => Except.error e
  | Except.ok costs => Except.ok (promptText (sortRows cost_rows) (summaryStats costs))

/-! ### `analyze_cost_with_gpt`: response-text extraction

The extraction chain of src/ai_analyzer.py lines 117–141: the
`output_text` attribute first, else a walk of the `output` item list
collecting every content fragment exposing a text value, else
`str(response)`; a falsy (empty) intermediate result also falls back
to `str(response)`.  The version-variable response object is modelled
by the fields this code reads plus its `str(...)` rendering. -/

/-- Python `str.strip()` on a character list (kernel-computable). -/
def trimChars (cs : List Char) : List Char :=
  ((cs.dropWhile Char.isWhitespace).reverse.dropWhile Char.isWhitespace).reverse

/-- Python `str.strip()`. -/
def strTrim (s : String) : String := String.mk (trimChars s.data)

/-- One entry of an item's `content` list: a dict with an optional
`text` value, a plain string, or any other value. -/
inductive Fragment where
  | fdict : Option String → Fragment
  | fstr : String → Fragment
  | fother : Fragment
deriving DecidableEq

/-- One entry of the response's `output` list: its
`item.get("content", [])`. -/
structure OutItem where
  content : List Fragment
deriving DecidableEq

/-- The parts of a generation-service response object the extraction
reads: the `output_text` attribute (when `hasattr` holds), the
`output` attribute when it is a list, and `str(response)`. -/
structure GPTResponse where
  output_text : Option String
  output : Option (List OutItem)
  strRepr : String
deriving DecidableEq

/-- The fragment test of the walk: a dict fragment contributes its
`text` when that is truthy (`c.get("text")` — non-empty), a string
fragment contributes itself, anything else is skipped. -/
def fragText : Fragment → Option String
  | Fragment.fdict (some t) => if t = "" then none else some t
  | Fragment.fdict none => none
  | Fragment.fstr s => some s
  | Fragment.fother => none

/-- The `parts` list collected by the walk over `output`. -/
def extractParts (items : List OutItem) : List String :=
  items.flatMap (fun it => it.content.filterMap fragText)

/-- The intermediate `ai_text` value before the final falsiness check
(src/ai_analyzer.py lines 117–135): the `output_text` attribute when
present, else the joined-and-stripped walk result when the `output`
list yields parts, else `None`. -/
def ai_text_opt (resp : GPTResponse) : Option String :=
  match resp.output_text with
  | some t => some t
  | none =>
    match resp.output with
    | some items =>
      if items.isEmpty then none
      else
        if (extractParts items).isEmpty then none
        else some (strTrim (joinSep "\n" (extractParts items)))
    | none => none

/-- The extraction chain producing `ai_text`
(src/ai_analyzer.py lines 117–141): `if not ai_text: ai_text =
str(response)`. -/
def extract_ai_text (resp : GPTResponse) : String :=
  match ai_text_opt resp with
  | some t => if t = "" then resp.strRepr else t
  | none => resp.strRepr

/-! ### Cost extraction: characterization and permutation invariance -/

/-- A record whose cost field `float(...)` handles without raising:
either skipped (`null`) or successfully converted. -/
def goodCost (r : CostRecord) : Prop :=
  getCost r = JVal.null ∨ (pyFloat (getCost r)).isOk = true

/-- The contribution of one record to the `costs` list: `none` when
filtered out or failing, `some` of the converted value otherwise. -/
def costOf (r : CostRecord) : Option ℚ :=
  if getCost r = JVal.null then none
  else
    match pyFloat (getCost r) with
    | Except.ok q => some q
    | Except.error _ => none

/-- The fixed `ValueError` message of the embedding. -/
def valueErrorMsg : String := "ValueError: could not convert string to float"

/-- The summary-statistics computation inside `build_prompt`
(src/ai_analyzer.py lines 31–50), exposed separately: the statistics
(or the escaping exception) produced from the input record list. -/
def build_stats (cost_rows : List CostRecord) : Except String SummaryStats :=
  match costsExtract (sortRows cost_rows) with
  | Except.error e => Except.error e
  | Except.ok costs => Except.ok (summaryStats costs)

instance goodCostDecidable (r : CostRecord) : Decidable (goodCost r) :=
  inferInstanceAs (Decidable (getCost r = JVal.null ∨ (pyFloat (getCost r)).isOk = true))

/-! ### A parser for the serialized statistics (round-trip witness) -/

/-- Consume an exact literal prefix. -/
def dropLit : List Char → List Char → Option (List Char)
  | [], cs => some cs
  | _ :: _, [] => none
  | l :: ls, c :: cs => if c = l then dropLit ls cs else none

/-- Consume a literal, then split the following token at the next
`stop` character. -/
def parseField (lit : List Char) (stop : Char) (cs : List Char) :
    Option (List Char × List Char) :=
  (dropLit lit cs).map
    (fun cs' => (cs'.takeWhile (fun c => c ≠ stop), cs'.dropWhile (fun c => c ≠ stop)))

/-- Parse the exact output format of `renderStats` back into a
`SummaryStats` value. -/
def parseStatsChars (cs : List Char) : Option SummaryStats :=
  (parseField statsLit1.data ',' cs).bind (fun p1 =>
    (parseField statsLit2.data ',' p1.2).bind (fun p2 =>
      (parseField statsLit3.data ',' p2.2).bind (fun p3 =>
        (parseField statsLit4.data '\n' p3.2).bind (fun p4 =>
          if p4.2 = statsLit5.data then
            some ⟨parseNatChars p1.1, parseRatChars p2.1,
              parseRatChars p3.1, parseRatChars p4.1⟩
          else none))))

/-- Parse a serialized statistics block. -/
def parseStats (s : String) : Option SummaryStats := parseStatsChars s.data

/-! ### Substring containment of the prompt pieces -/

/-- Substring containment witnessed by a decomposition. -/
def StrContains (s t : String) : Prop := ∃ a b : String, s = a ++ t ++ b

/-- Characters `json.dumps` passes through unescaped (in this
embedding's escape set). -/
def jsonSafeChar (c : Char) : Bool :=
  !(c = '"' || c = '\\' || c = '\n' || c = '\t' || c = '\r')

/-- A string the JSON renderer serializes verbatim. -/
def jsonSafe (s : String) : Bool := s.data.all jsonSafeChar

/-! ### Theorems -/

theorem rat_den_ne_zero_q (a : ℚ) : ((a.den : ℚ)) ≠ 0 := by
  exact_mod_cast a.den_nz

theorem rat_num_eq_mul_den (a : ℚ) : (a.num : ℚ) = a * (a.den : ℚ) := by
  have h := Rat.num_div_den a
  rw [div_eq_iff (rat_den_ne_zero_q a)] at h
  exact h

theorem qAdd_eq (a b : ℚ) : qAdd a b = a + b := by
  rw [qAdd, Rat.mkRat_eq_div]
  push_cast
  rw [div_eq_iff (mul_ne_zero (rat_den_ne_zero_q a) (rat_den_ne_zero_q b)),
    rat_num_eq_mul_den a, rat_num_eq_mul_den b]
  ring

theorem qSub_eq (a b : ℚ) : qSub a b = a - b := by
  rw [qSub, Rat.mkRat_eq_div]
  push_cast
  rw [div_eq_iff (mul_ne_zero (rat_den_ne_zero_q a) (rat_den_ne_zero_q b)),
    rat_num_eq_mul_den a, rat_num_eq_mul_den b]
  ring

theorem qMul_eq (a b : ℚ) : qMul a b = a * b := by
  rw [qMul, Rat.mkRat_eq_div]
  push_cast
  rw [div_eq_iff (mul_ne_zero (rat_den_ne_zero_q a) (rat_den_ne_zero_q b)),
    rat_num_eq_mul_den a, rat_num_eq_mul_den b]
  ring

theorem qDiv_eq (a b : ℚ) : qDiv a b = a / b := by
  rcases eq_or_ne b 0 with rfl | hb
  · simp [qDiv, Rat.mkRat_eq_div]
  · have hbnum : (b.num : ℚ) ≠ 0 := by
      exact_mod_cast Rat.num_ne_zero.mpr hb
    have hbne : b ≠ 0 := hb
    have key : ∀ u v : ℚ, u = (a.num : ℚ) * (b.den : ℚ) → v = (a.den : ℚ) * (b.num : ℚ) →
        u / v = a / b := by
      intro u v hu hv
      subst hu hv
      rw [div_eq_div_iff (mul_ne_zero (rat_den_ne_zero_q a) hbnum) hbne,
        rat_num_eq_mul_den a, rat_num_eq_mul_den b]
      ring
    rcases le_or_lt 0 b.num with hpos | hneg
    · rw [qDiv, if_pos hpos, Rat.mkRat_eq_div]
      have h1 : (b.num.natAbs : ℤ) = b.num := Int.natAbs_of_nonneg hpos
      have habs : ((b.num.natAbs : ℕ) : ℚ) = (b.num : ℚ) := by
        calc ((b.num.natAbs : ℕ) : ℚ) = ((b.num.natAbs : ℤ) : ℚ) := (Int.cast_natCast _).symm
          _ = (b.num : ℚ) := by rw [h1]
      push_cast [habs]
      exact key _ _ rfl rfl
    · rw [qDiv, if_neg (not_le.mpr hneg), Rat.mkRat_eq_div]
      have h1 : (b.num.natAbs : ℤ) = -b.num := by omega
      have habs : ((b.num.natAbs : ℕ) : ℚ) = -(b.num : ℚ) := by
        calc ((b.num.natAbs : ℕ) : ℚ) = ((b.num.natAbs : ℤ) : ℚ) := (Int.cast_natCast _).symm
          _ = ((-b.num : ℤ) : ℚ) := by rw [h1]
          _ = -(b.num : ℚ) := by push_cast; ring
      push_cast [habs]
      rw [mul_neg, neg_div_neg_eq]
      exact key _ _ rfl rfl

theorem qSum_eq (l : List ℚ) : qSum l = l.sum := by
  induction l with
  | nil => rfl
  | cons x xs ih => rw [qSum, qAdd_eq, ih, List.sum_cons]

theorem digitChar_val {d : ℕ} (h : d < 10) : charVal (digitChar d) = d := by
  have : ∀ e, e < 10 → charVal (digitChar e) = e := by decide
  exact this d h

theorem digitChar_range {d : ℕ} (h : d < 10) :
    48 ≤ (digitChar d).toNat ∧ (digitChar d).toNat ≤ 57 := by
  have : ∀ e, e < 10 → 48 ≤ (digitChar e).toNat ∧ (digitChar e).toNat ≤ 57 := by decide
  exact this d h

theorem natDigitsAux_chars :
    ∀ fuel n, ∀ c ∈ natDigitsAux fuel n, 48 ≤ c.toNat ∧ c.toNat ≤ 57 := by
  intro fuel
  induction fuel with
  | zero => intro n c hc; simp [natDigitsAux] at hc
  | succ fuel ih =>
    intro n c hc
    rw [natDigitsAux] at hc
    by_cases h0 : n = 0
    · rw [if_pos h0] at hc; simp at hc
    · rw [if_neg h0] at hc
      rcases List.mem_append.mp hc with h | h
      · exact ih _ c h
      · have : c = digitChar (n % 10) := by simpa using h
        subst this
        exact digitChar_range (Nat.mod_lt _ (by norm_num))

theorem parse_natDigitsAux :
    ∀ fuel n acc, n ≤ fuel →
      List.foldl (fun a c => 10 * a + charVal c) acc (natDigitsAux fuel n) =
        acc * 10 ^ (natDigitsAux fuel n).length + n := by
  intro fuel
  induction fuel with
  | zero =>
    intro n acc h
    interval_cases n
    simp [natDigitsAux]
  | succ fuel ih =>
    intro n acc h
    rw [natDigitsAux]
    by_cases h0 : n = 0
    · subst h0; simp
    · rw [if_neg h0, List.foldl_append, List.length_append]
      have hdiv : n / 10 ≤ fuel := by
        have h1 : n / 10 < n := Nat.div_lt_self (Nat.pos_of_ne_zero h0) (by norm_num)
        omega
      rw [ih _ acc hdiv]
      simp only [List.foldl_cons, List.foldl_nil, List.length_cons, List.length_nil]
      rw [digitChar_val (Nat.mod_lt _ (by norm_num))]
      have : n % 10 + 10 * (n / 10) = n := Nat.mod_add_div n 10
      ring_nf
      omega

theorem parseNat_natRepr (n : ℕ) : parseNatChars (natRepr n).data = n := by
  by_cases h0 : n = 0
  · subst h0; rfl
  · rw [natRepr, if_neg h0]
    have := parse_natDigitsAux (n + 1) n 0 (by omega)
    simpa [parseNatChars] using this

theorem natRepr_chars {n : ℕ} {c : Char} (hc : c ∈ (natRepr n).data) :
    48 ≤ c.toNat ∧ c.toNat ≤ 57 := by
  by_cases h0 : n = 0
  · subst h0
    have : c = '0' := by simpa [natRepr] using hc
    subst this; decide
  · rw [natRepr, if_neg h0] at hc
    exact natDigitsAux_chars _ n c hc

theorem natRepr_ne_nil (n : ℕ) : (natRepr n).data ≠ [] := by
  by_cases h0 : n = 0
  · subst h0; simp [natRepr]
  · rw [natRepr, if_neg h0]
    rw [natDigitsAux, if_neg h0]
    simp

theorem intRepr_chars {i : ℤ} {c : Char} (hc : c ∈ (intRepr i).data) :
    c = '-' ∨ (48 ≤ c.toNat ∧ c.toNat ≤ 57) := by
  rw [intRepr] at hc
  by_cases hneg : i < 0
  · rw [if_pos hneg, String.data_append] at hc
    rcases List.mem_append.mp hc with h | h
    · left; simpa using h
    · right; exact natRepr_chars h
  · rw [if_neg hneg] at hc
    right; exact natRepr_chars hc

theorem parseInt_intRepr (i : ℤ) : parseIntChars (intRepr i).data = i := by
  rw [intRepr]
  by_cases hneg : i < 0
  · rw [if_pos hneg, String.data_append]
    have hdash : ("-" : String).data = ['-'] := rfl
    rw [hdash]
    rw [List.cons_append, List.nil_append]
    have hstep : parseIntChars ('-' :: (natRepr i.natAbs).data) =
        -((parseNatChars (natRepr i.natAbs).data : ℕ) : ℤ) := by
      simp [parseIntChars]
    rw [hstep, parseNat_natRepr]
    omega
  · rw [if_neg hneg]
    rcases hdata : (natRepr i.toNat).data with _ | ⟨c, cs⟩
    · exact absurd hdata (natRepr_ne_nil _)
    · have hcdig : 48 ≤ c.toNat ∧ c.toNat ≤ 57 := by
        apply natRepr_chars
        rw [hdata]; exact List.mem_cons_self _ _
      have hcne : c ≠ '-' := by
        intro h
        subst h
        revert hcdig
        decide
      rw [parseIntChars, if_neg hcne, ← hdata, parseNat_natRepr]
      omega

theorem takeWhile_middle (p : Char → Bool) (A : List Char) (x : Char) (B : List Char)
    (hA : ∀ c ∈ A, p c = true) (hx : p x = false) :
    (A ++ x :: B).takeWhile p = A ∧ (A ++ x :: B).dropWhile p = x :: B := by
  induction A with
  | nil =>
    constructor
    · simp [List.takeWhile_cons, hx]
    · simp [List.dropWhile_cons, hx]
  | cons a A ih =>
    have ha : p a = true := hA a (List.mem_cons_self _ _)
    have hA' : ∀ c ∈ A, p c = true := fun c hc => hA c (List.mem_cons_of_mem _ hc)
    rcases ih hA' with ⟨h1, h2⟩
    constructor
    · simp [List.takeWhile_cons, ha, h1]
    · simp [List.dropWhile_cons, ha, h2]

theorem takeWhile_all {p : Char → Bool} {A : List Char} (hA : ∀ c ∈ A, p c = true) :
    A.takeWhile p = A ∧ A.dropWhile p = [] := by
  induction A with
  | nil => exact ⟨rfl, rfl⟩
  | cons a A ih =>
    have ha : p a = true := hA a (List.mem_cons_self _ _)
    rcases ih (fun c hc => hA c (List.mem_cons_of_mem _ hc)) with ⟨h1, h2⟩
    constructor
    · simp [List.takeWhile_cons, ha, h1]
    · simp [List.dropWhile_cons, ha, h2]

theorem intRepr_no_slash {i : ℤ} {c : Char} (hc : c ∈ (intRepr i).data) :
    (c ≠ '/') = True := by
  simp only [eq_iff_iff, iff_true]
  rcases intRepr_chars hc with h | h
  · subst h; decide
  · intro heq
    subst heq
    revert h
    decide

theorem parseRat_renderQ (q : ℚ) : parseRatChars (renderQ q).data = q := by
  rw [renderQ]
  by_cases hden : q.den = 1
  · rw [if_pos hden, parseRatChars]
    have hall : ∀ c ∈ (intRepr q.num).data, (fun c => decide (c ≠ '/')) c = true := by
      intro c hc
      simp only [decide_eq_true_eq]
      have := intRepr_no_slash hc
      simpa using this
    rcases takeWhile_all hall with ⟨_, h2⟩
    rw [h2, parseInt_intRepr]
    exact (Rat.den_eq_one_iff q).mp hden
  · rw [if_neg hden, parseRatChars]
    have hdata : (intRepr q.num ++ "/" ++ natRepr q.den).data =
        (intRepr q.num).data ++ '/' :: (natRepr q.den).data := by
      rw [String.data_append, String.data_append]
      have hslash : ("/" : String).data = ['/'] := rfl
      rw [hslash]
      simp
    rw [hdata]
    have hall : ∀ c ∈ (intRepr q.num).data, (fun c => decide (c ≠ '/')) c = true := by
      intro c hc
      simp only [decide_eq_true_eq]
      have := intRepr_no_slash hc
      simpa using this
    have hx : (fun c => decide (c ≠ '/')) '/' = false := by decide
    rcases takeWhile_middle _ _ '/' (natRepr q.den).data hall hx with ⟨h1, h2⟩
    rw [h1, h2]
    change mkRat (parseIntChars (intRepr q.num).data) (parseNatChars (natRepr q.den).data) = q
    rw [parseInt_intRepr, parseNat_natRepr]
    exact Rat.mkRat_self q

theorem qNeg_eq (a : ℚ) : qNeg a = -a := by
  rw [qNeg, Rat.mkRat_eq_div]
  push_cast
  rw [neg_div, Rat.num_div_den]

/-! ### Order theory for the sort relation -/

theorem char_toNat_inj {a b : Char} (h : a.toNat = b.toNat) : a = b := by
  cases a; cases b
  simp only [Char.toNat] at h
  congr 1
  exact UInt32.toNat.inj h

theorem charListLt_asymm : ∀ {a b : List Char}, charListLt a b = true → charListLt b a = false := by
  intro a
  induction a with
  | nil =>
    intro b h
    cases b with
    | nil => simp [charListLt] at h
    | cons c cs => simp [charListLt]
  | cons x xs ih =>
    intro b h
    cases b with
    | nil => simp [charListLt] at h
    | cons y ys =>
      rw [charListLt] at h ⊢
      by_cases h1 : x.toNat < y.toNat
      · rw [if_neg (by omega), if_pos h1]
      · rw [if_neg h1] at h
        by_cases h2 : y.toNat < x.toNat
        · rw [if_pos h2] at h; exact absurd h (by simp)
        · rw [if_neg h2] at h
          rw [if_neg h1, if_neg h2]
          exact ih h

theorem charListLt_conn : ∀ {a b : List Char},
    charListLt a b = false → charListLt b a = false → a = b := by
  intro a
  induction a with
  | nil =>
    intro b h _
    cases b with
    | nil => rfl
    | cons c cs => simp [charListLt] at h
  | cons x xs ih =>
    intro b h h2
    cases b with
    | nil => simp [charListLt] at h2
    | cons y ys =>
      rw [charListLt] at h h2
      by_cases h1 : x.toNat < y.toNat
      · rw [if_pos h1] at h; exact absurd h (by simp)
      · by_cases h3 : y.toNat < x.toNat
        · rw [if_pos h3] at h2; exact absurd h2 (by simp)
        · rw [if_neg h1, if_neg h3] at h
          rw [if_neg h3, if_neg h1] at h2
          have hxy : x = y := char_toNat_inj (by omega)
          rw [hxy, ih h h2]

theorem charListLt_trans : ∀ {a b c : List Char},
    charListLt a b = true → charListLt b c = true → charListLt a c = true := by
  intro a
  induction a with
  | nil =>
    intro b c hab hbc
    cases c with
    | nil =>
      cases b with
      | nil => simp [charListLt] at hab
      | cons y ys => simp [charListLt] at hbc
    | cons z zs => simp [charListLt]
  | cons x xs ih =>
    intro b c hab hbc
    cases b with
    | nil => simp [charListLt] at hab
    | cons y ys =>
      cases c with
      | nil => simp [charListLt] at hbc
      | cons z zs =>
        rw [charListLt] at hab hbc ⊢
        by_cases h1 : x.toNat < y.toNat
        · by_cases h2 : y.toNat < z.toNat
          · rw [if_pos (by omega)]
          · rw [if_neg h2] at hbc
            by_cases h3 : z.toNat < y.toNat
            · rw [if_pos h3] at hbc; exact absurd hbc (by simp)
            · have : y.toNat = z.toNat := by omega
              rw [if_pos (by omega)]
        · rw [if_neg h1] at hab
          by_cases h3 : y.toNat < x.toNat
          · rw [if_pos h3] at hab; exact absurd hab (by simp)
          · rw [if_neg h3] at hab
            have hxy : x.toNat = y.toNat := by omega
            by_cases h2 : y.toNat < z.toNat
            · rw [if_pos (by omega)]
            · rw [if_neg h2] at hbc
              by_cases h4 : z.toNat < y.toNat
              · rw [if_pos h4] at hbc; exact absurd hbc (by simp)
              · rw [if_neg h4] at hbc
                rw [if_neg (by omega), if_neg (by omega)]
                exact ih hab hbc

theorem strLe_total (s t : String) : strLe s t = true ∨ strLe t s = true := by
  rw [strLe, strLe]
  by_cases h : charListLt t.data s.data = true
  · right
    rw [charListLt_asymm h]
    rfl
  · left
    rw [Bool.not_eq_true] at h
    rw [h]
    rfl

theorem strLe_trans {s t u : String} (h1 : strLe s t = true) (h2 : strLe t u = true) :
    strLe s u = true := by
  rw [strLe, Bool.not_eq_true'] at h1 h2 ⊢
  rcases Bool.eq_false_or_eq_true (charListLt u.data s.data) with h | h
  · exfalso
    rcases Bool.eq_false_or_eq_true (charListLt s.data t.data) with hst | hst
    · have htrans := charListLt_trans h hst
      rw [h2] at htrans
      exact Bool.false_ne_true htrans
    · have heq : t.data = s.data := charListLt_conn h1 hst
      rw [heq] at h2
      rw [h2] at h
      exact Bool.false_ne_true h
  · exact h

theorem strLe_antisymm {s t : String} (h1 : strLe s t = true) (h2 : strLe t s = true) :
    s = t := by
  rw [strLe, Bool.not_eq_true'] at h1 h2
  have hd : s.data = t.data := charListLt_conn h2 h1
  cases s; cases t
  exact congrArg String.mk hd

theorem keyLe_total (a b : JVal) : keyLe a b = true ∨ keyLe b a = true := by
  cases a <;> cases b <;> simp [keyLe]
  · exact le_total _ _
  · exact strLe_total _ _

theorem keyLe_trans {a b c : JVal} (h1 : keyLe a b = true) (h2 : keyLe b c = true) :
    keyLe a c = true := by
  cases a <;> cases b <;> cases c <;> simp [keyLe] at h1 h2 ⊢
  · exact le_trans h1 h2
  · exact strLe_trans h1 h2

theorem keyLe_antisymm {a b : JVal} (h1 : keyLe a b = true) (h2 : keyLe b a = true) :
    a = b := by
  cases a <;> cases b <;> simp [keyLe] at h1 h2 ⊢
  · exact le_antisymm h1 h2
  · exact strLe_antisymm h1 h2

theorem sortRows_perm (rows : List CostRecord) : (sortRows rows).Perm rows := by
  rw [sortRows]
  by_cases h : sortable rows = true
  · rw [if_pos h]
    exact List.perm_insertionSort RecordLe rows
  · rw [if_neg h]

theorem sortRows_sorted {rows : List CostRecord} (h : sortable rows = true) :
    List.Sorted RecordLe (sortRows rows) := by
  rw [sortRows, if_pos h]
  have htot : IsTotal CostRecord RecordLe := ⟨fun a b => keyLe_total (dateKey a) (dateKey b)⟩
  have htrans : IsTrans CostRecord RecordLe := ⟨fun _ _ _ h1 h2 => keyLe_trans h1 h2⟩
  exact List.sorted_insertionSort RecordLe rows

theorem sortRows_unsortable {rows : List CostRecord} (h : sortable rows = false) :
    sortRows rows = rows := by
  rw [sortRows, h]
  rfl

theorem pyFloat_bad {v : JVal} (hnn : v ≠ JVal.null)
    (hbad : ¬(pyFloat v).isOk = true) : pyFloat v = Except.error valueErrorMsg := by
  cases v with
  | null => exact absurd rfl hnn
  | num q => exact absurd rfl hbad
  | str s =>
    cases hps : pyFloatOfString s with
    | some q =>
      exfalso
      apply hbad
      rw [pyFloat, hps]
      rfl
    | none =>
      rw [pyFloat, hps]
      rfl

theorem pyFloat_error_msg {v : JVal} (hnn : v ≠ JVal.null) {e : String}
    (he : pyFloat v = Except.error e) : e = valueErrorMsg := by
  cases v with
  | null => exact absurd rfl hnn
  | num q => simp [pyFloat] at he
  | str s =>
    rw [pyFloat] at he
    cases hps : pyFloatOfString s with
    | some q => rw [hps] at he; simp at he
    | none =>
      rw [hps] at he
      exact (Except.error.inj he).symm

theorem costsExtract_ok {l : List CostRecord} (h : ∀ r ∈ l, goodCost r) :
    costsExtract l = Except.ok (l.filterMap costOf) := by
  induction l with
  | nil => rfl
  | cons r rs ih =>
    have hr := h r (List.mem_cons_self _ _)
    have hrs := ih (fun x hx => h x (List.mem_cons_of_mem _ hx))
    rw [costsExtract, List.filterMap_cons]
    by_cases hnull : getCost r = JVal.null
    · rw [if_pos hnull, hrs, costOf, if_pos hnull]
    · rw [if_neg hnull, costOf, if_neg hnull]
      rcases hr with h1 | h2
      · exact absurd h1 hnull
      · cases hp : pyFloat (getCost r) with
        | error e => rw [hp] at h2; exact absurd h2 (by simp [Except.isOk, Except.toBool])
        | ok q => rw [hrs]

theorem costsExtract_error {l : List CostRecord} (h : ∃ r ∈ l, ¬goodCost r) :
    costsExtract l = Except.error valueErrorMsg := by
  induction l with
  | nil => simp at h
  | cons r rs ih =>
    rw [costsExtract]
    rcases h with ⟨x, hx, hbad⟩
    rcases List.mem_cons.mp hx with rfl | hxs
    · have hnn : getCost x ≠ JVal.null := fun hc => hbad (Or.inl hc)
      have hno : ¬(pyFloat (getCost x)).isOk = true := fun hc => hbad (Or.inr hc)
      rw [if_neg hnn, pyFloat_bad hnn hno]
    · by_cases hnull : getCost r = JVal.null
      · rw [if_pos hnull]
        exact ih ⟨x, hxs, hbad⟩
      · have htail := ih ⟨x, hxs, hbad⟩
        rw [if_neg hnull, htail]
        cases hp : pyFloat (getCost r) with
        | ok q => rfl
        | error e =>
          have hmsg := pyFloat_error_msg hnull hp
          rw [hmsg]

theorem summaryStats_perm {c₁ c₂ : List ℚ} (h : c₁.Perm c₂) :
    summaryStats c₁ = summaryStats c₂ := by
  have hlen : c₁.length = c₂.length := h.length_eq
  have hsum : qSum c₁ = qSum c₂ := by rw [qSum_eq, qSum_eq, h.sum_eq]
  have hmean : listMean c₁ = listMean c₂ := by rw [listMean, listMean, hsum, hlen]
  have hvar : pvariance c₁ = pvariance c₂ := by
    rw [pvariance, pvariance, hmean, hlen]
    congr 1
    rw [qSum_eq, qSum_eq]
    exact (h.map _).sum_eq
  have hemp : c₁.isEmpty = c₂.isEmpty := by
    cases c₁ with
    | nil =>
      cases c₂ with
      | nil => rfl
      | cons _ _ => simp at hlen
    | cons _ _ =>
      cases c₂ with
      | nil => simp at hlen
      | cons _ _ => rfl
  rw [summaryStats, summaryStats, hemp, hlen, hsum, hmean, hvar]

theorem listMean_eq (costs : List ℚ) : listMean costs = costs.sum / (costs.length : ℚ) := by
  rw [listMean, qDiv_eq, qSum_eq, Rat.mkRat_eq_div]
  push_cast
  rw [div_one]

theorem pvariance_eq (costs : List ℚ) :
    pvariance costs =
      (costs.map (fun x => (x - costs.sum / (costs.length : ℚ)) ^ 2)).sum / (costs.length : ℚ) := by
  rw [pvariance, qDiv_eq, qSum_eq, Rat.mkRat_eq_div]
  push_cast
  rw [div_one]
  congr 1
  have hpt : ∀ x ∈ costs,
      qMul (qSub x (listMean costs)) (qSub x (listMean costs)) =
        (x - costs.sum / (costs.length : ℚ)) ^ 2 := by
    intro x _
    rw [qMul_eq, qSub_eq, listMean_eq, pow_two]
  rw [List.map_congr_left hpt]

theorem pvariance_nonneg (costs : List ℚ) : 0 ≤ pvariance costs := by
  rw [pvariance_eq]
  apply div_nonneg
  · apply List.sum_nonneg
    intro x hx
    rcases List.mem_map.mp hx with ⟨y, _, rfl⟩
    exact sq_nonneg _
  · exact_mod_cast Nat.zero_le _

/-! ### Claim theorems -/

/-- Claim C1: for every `current ≥ 0` and every `threshold`,
`detect_anomaly(current, previous, threshold)` returns `false` when
`previous == 0`, and when `previous > 0` it returns `true` iff
`current / previous >= threshold`.  (The function is a total Lean
function, hence deterministic and raising nothing; the source's
default `threshold` is `3/2 = 1.5`.) -/
theorem claim_C1_detect_anomaly (current previous threshold : ℚ) (_hcur : 0 ≤ current) :
    (previous = 0 → detect_anomaly current previous threshold = false) ∧
    (0 < previous →
      (detect_anomaly current previous threshold = true ↔ threshold ≤ current / previous)) := by
  constructor
  · intro h
    rw [detect_anomaly, if_pos h]
  · intro hpos
    rw [detect_anomaly, if_neg (ne_of_gt hpos), qDiv_eq]
    exact decide_eq_true_iff

/-- Witness for C1 at `current = 150`, `previous = 100`,
`threshold = 3/2`: the hypotheses hold and the ratio test agrees with
the boolean result (`150/100 = 1.5 ≥ 1.5`, so the alarm fires). -/
theorem claim_C1_detect_anomaly_witness :
    ((0:ℚ) ≤ 150 ∧ (0:ℚ) < 100) ∧
      (detect_anomaly 150 100 (mkRat 3 2) = true ↔ (mkRat 3 2 : ℚ) ≤ 150 / 100) ∧
      detect_anomaly 150 100 (mkRat 3 2) = true :=
  ⟨⟨by norm_num, by norm_num⟩,
    (claim_C1_detect_anomaly 150 100 (mkRat 3 2) (by norm_num)).2 (by norm_num),
    by decide⟩

theorem summaryStats_nil : summaryStats [] = ⟨0, 0, 0, 0⟩ := rfl

theorem summaryStats_cons (x : ℚ) (xs : List ℚ) :
    summaryStats (x :: xs) =
      { count := (x :: xs).length
        total := qSum (x :: xs)
        mean := listMean (x :: xs)
        stdev_sq := if 1 < (x :: xs).length then pvariance (x :: xs) else 0 } := rfl

/-- Claim C2: the summary statistics computed inside `build_prompt`
satisfy: count 0 gives total, mean and stdev all exactly `0`; count 1
gives stdev exactly `0` (a genuine value, not NaN/undefined); count
greater than 1 gives the population standard deviation, i.e. the
stored squared deviation `stdev_sq` is the squared-deviation sum
divided by the count (not count − 1) and the stdev is its nonnegative
square root; and for costs `[10, 20]` the statistics are count 2,
total 30, mean 15, stdev `√25 = 5`. -/
theorem claim_C2_summary_stats (rows : List CostRecord) (s : SummaryStats)
    (h : build_stats rows = Except.ok s) :
    (s.count = 0 → s.total = 0 ∧ s.mean = 0 ∧ Real.sqrt ((s.stdev_sq : ℚ) : ℝ) = 0) ∧
    (s.count = 1 → Real.sqrt ((s.stdev_sq : ℚ) : ℝ) = 0) ∧
    (1 < s.count → ∃ costs : List ℚ,
        costsExtract (sortRows rows) = Except.ok costs ∧
        s.count = costs.length ∧
        s.stdev_sq =
          (costs.map (fun x => (x - costs.sum / (costs.length : ℚ)) ^ 2)).sum /
            (costs.length : ℚ) ∧
        0 ≤ s.stdev_sq) ∧
    (build_stats [⟨none, none, some (JVal.num 10)⟩, ⟨none, none, some (JVal.num 20)⟩] =
        Except.ok ⟨2, 30, 15, 25⟩ ∧
      Real.sqrt ((25 : ℚ) : ℝ) = 5) := by
  have h' : ∃ costs, costsExtract (sortRows rows) = Except.ok costs ∧ s = summaryStats costs := by
    rw [build_stats] at h
    cases hce : costsExtract (sortRows rows) with
    | error e => rw [hce] at h; exact absurd h (by simp)
    | ok costs => rw [hce] at h; exact ⟨costs, rfl, (Except.ok.inj h).symm⟩
  obtain ⟨costs, hce, rfl⟩ := h'
  refine ⟨?_, ?_, ?_, ?_⟩
  · intro h0
    cases costs with
    | cons x xs =>
      rw [summaryStats_cons] at h0
      simp at h0
    | nil =>
      refine ⟨rfl, rfl, ?_⟩
      rw [summaryStats_nil]
      rw [show (((0:ℚ)) : ℝ) = 0 by norm_num, Real.sqrt_zero]
  · intro h1
    cases costs with
    | nil =>
      rw [summaryStats_nil] at h1
      simp at h1
    | cons x xs =>
      have hlen : (x :: xs).length = 1 := by rw [summaryStats_cons] at h1; exact h1
      have hnot : ¬(1 < (x :: xs).length) := by omega
      have hsq : (summaryStats (x :: xs)).stdev_sq = 0 := by
        rw [summaryStats_cons]
        exact if_neg hnot
      rw [hsq]
      rw [show (((0:ℚ)) : ℝ) = 0 by norm_num, Real.sqrt_zero]
  · intro hgt
    cases costs with
    | nil =>
      rw [summaryStats_nil] at hgt
      simp at hgt
    | cons x xs =>
      have hlen : 1 < (x :: xs).length := by rw [summaryStats_cons] at hgt; exact hgt
      have hsq : (summaryStats (x :: xs)).stdev_sq = pvariance (x :: xs) := by
        rw [summaryStats_cons]
        exact if_pos hlen
      refine ⟨x :: xs, hce, ?_, ?_, ?_⟩
      · rw [summaryStats_cons]
      · rw [hsq, pvariance_eq]
      · rw [hsq]
        exact pvariance_nonneg _
  · refine ⟨by decide, ?_⟩
    rw [show (((25:ℚ)) : ℝ) = (5:ℝ) ^ 2 by norm_num]
    exact Real.sqrt_sq (by norm_num)

/-- Witness for C2 at the example input (two records with costs 10 and
20): `build_stats` yields count 2, total 30, mean 15 and
`stdev_sq = 25`, whose square root is 5. -/
theorem claim_C2_summary_stats_witness :
    build_stats [⟨none, none, some (JVal.num 10)⟩, ⟨none, none, some (JVal.num 20)⟩] =
        Except.ok ⟨2, 30, 15, 25⟩ ∧
      Real.sqrt ((25 : ℚ) : ℝ) = 5 :=
  (claim_C2_summary_stats
      [⟨none, none, some (JVal.num 10)⟩, ⟨none, none, some (JVal.num 20)⟩]
      ⟨2, 30, 15, 25⟩ (by decide)).2.2.2

/-- Claim C3: a record whose `cost` is absent or `None` is excluded
before aggregation — the summary statistics computed inside
`build_prompt` for a list containing such a record equal those for the
same list with the record removed. -/
theorem claim_C3_null_cost_excluded (l₁ l₂ : List CostRecord) (r : CostRecord)
    (h : getCost r = JVal.null) :
    build_stats (l₁ ++ r :: l₂) = build_stats (l₁ ++ l₂) := by
  have hpa : (sortRows (l₁ ++ r :: l₂)).Perm (l₁ ++ r :: l₂) := sortRows_perm _
  have hpb : (sortRows (l₁ ++ l₂)).Perm (l₁ ++ l₂) := sortRows_perm _
  have hgood_r : goodCost r := Or.inl h
  by_cases hall : ∀ x ∈ l₁ ++ l₂, goodCost x
  · have hallA : ∀ x ∈ sortRows (l₁ ++ r :: l₂), goodCost x := by
      intro x hx
      have hx' : x ∈ l₁ ++ r :: l₂ := hpa.mem_iff.mp hx
      rcases List.mem_append.mp hx' with h1 | h2
      · exact hall x (List.mem_append.mpr (Or.inl h1))
      · rcases List.mem_cons.mp h2 with rfl | h3
        · exact hgood_r
        · exact hall x (List.mem_append.mpr (Or.inr h3))
    have hallB : ∀ x ∈ sortRows (l₁ ++ l₂), goodCost x := fun x hx =>
      hall x (hpb.mem_iff.mp hx)
    rw [build_stats, build_stats, costsExtract_ok hallA, costsExtract_ok hallB]
    have hfm : ((l₁ ++ r :: l₂).filterMap costOf).Perm ((l₁ ++ l₂).filterMap costOf) := by
      rw [List.filterMap_append, List.filterMap_append, List.filterMap_cons]
      rw [costOf, if_pos h]
    have hperm : ((sortRows (l₁ ++ r :: l₂)).filterMap costOf).Perm
        ((sortRows (l₁ ++ l₂)).filterMap costOf) :=
      ((hpa.filterMap costOf).trans hfm).trans (hpb.filterMap costOf).symm
    exact congrArg Except.ok (summaryStats_perm hperm)
  · push_neg at hall
    rcases hall with ⟨x, hx, hbad⟩
    have hbadA : ∃ y ∈ sortRows (l₁ ++ r :: l₂), ¬goodCost y := by
      refine ⟨x, ?_, hbad⟩
      apply hpa.mem_iff.mpr
      rcases List.mem_append.mp hx with h1 | h2
      · exact List.mem_append.mpr (Or.inl h1)
      · exact List.mem_append.mpr (Or.inr (List.mem_cons_of_mem _ h2))
    have hbadB : ∃ y ∈ sortRows (l₁ ++ l₂), ¬goodCost y :=
      ⟨x, hpb.mem_iff.mpr hx, hbad⟩
    rw [build_stats, build_stats, costsExtract_error hbadA, costsExtract_error hbadB]

/-- Witness for C3: inserting a record with `cost: None` between two
numeric-cost records leaves the statistics unchanged. -/
theorem claim_C3_null_cost_excluded_witness :
    getCost ⟨none, none, some JVal.null⟩ = JVal.null ∧
      build_stats ([⟨none, none, some (JVal.num 10)⟩] ++
          ⟨none, none, some JVal.null⟩ :: [⟨none, none, some (JVal.num 20)⟩]) =
        build_stats ([⟨none, none, some (JVal.num 10)⟩] ++ [⟨none, none, some (JVal.num 20)⟩]) :=
  ⟨rfl, claim_C3_null_cost_excluded [⟨none, none, some (JVal.num 10)⟩]
    [⟨none, none, some (JVal.num 20)⟩] ⟨none, none, some JVal.null⟩ rfl⟩

/-- Counterexample to C5 as stated: on a record whose cost is the
string `"abc"`, `float("abc")` raises `ValueError` outside any
`try/except`, so `build_prompt` does not return a prompt — the
exception escapes. -/
theorem claim_C5_counterexample :
    build_prompt [⟨none, none, some (JVal.str "abc")⟩] = Except.error valueErrorMsg ∧
      ∀ p, build_prompt [⟨none, none, some (JVal.str "abc")⟩] ≠ Except.ok p := by
  constructor
  · decide
  · intro p hp
    have h : build_prompt [⟨none, none, some (JVal.str "abc")⟩] = Except.error valueErrorMsg := by
      decide
    rw [h] at hp
    exact Except.noConfusion hp

/-- Claim C5, amended: `build_prompt` terminates normally with a
prompt string for every record list whose present, non-`None` cost
values are accepted by `float(...)` (numbers or numeric strings) —
unsortable dates are still recovered by the sort fallback, but a
non-numeric cost value raises a `ValueError` that escapes. -/
theorem claim_C5_amended (rows : List CostRecord) (h : ∀ r ∈ rows, goodCost r) :
    ∃ p, build_prompt rows = Except.ok p := by
  have hs : ∀ r ∈ sortRows rows, goodCost r := fun r hr =>
    h r ((sortRows_perm rows).mem_iff.mp hr)
  rw [build_prompt, costsExtract_ok hs]
  exact ⟨_, rfl⟩

/-- Witness for the amended C5: a list with a numeric cost, a
numeric-string cost, a missing cost and an unsortable date still
produces a prompt. -/
theorem claim_C5_amended_witness :
    (∀ r ∈ [⟨some (JVal.num 3), none, some (JVal.num 10)⟩,
        (⟨some JVal.null, none, some (JVal.str "2.5")⟩ : CostRecord),
        ⟨none, none, none⟩], goodCost r) ∧
      ∃ p, build_prompt [⟨some (JVal.num 3), none, some (JVal.num 10)⟩,
        (⟨some JVal.null, none, some (JVal.str "2.5")⟩ : CostRecord),
        ⟨none, none, none⟩] = Except.ok p :=
  ⟨by decide, claim_C5_amended _ (by decide)⟩

/-- Claim C9: whenever an anomaly is detected (`previous > 0` and
`current / previous ≥ 1.5`), the alert message handed to the alert
sink is the ratio rendered to two decimal places, followed by
yesterday's and then today's raw totals rendered to four decimal
places, in that order. -/
theorem claim_C9_alert_format (prev_cost today_total : ℚ)
    (hprev : 0 < prev_cost) (hratio : mkRat 3 2 ≤ today_total / prev_cost) :
    ∃ pre mid₁ mid₂ post : String,
      main_alert prev_cost today_total =
        some (pre ++ fmtFixed (today_total / prev_cost) 2 ++ mid₁ ++
          fmtFixed prev_cost 4 ++ mid₂ ++ fmtFixed today_total 4 ++ post) := by
  have hdet : detect_anomaly today_total prev_cost (mkRat 3 2) = true := by
    rw [detect_anomaly, if_neg (ne_of_gt hprev), qDiv_eq]
    exact decide_eq_true hratio
  refine ⟨"🚨 AWS 비용 이상 감지!\n" ++ "전일 대비 ", "배 증가\n" ++ "어제: ",
    " USD → 오늘: ", " USD", ?_⟩
  rw [main_alert, if_pos hdet, alert_message, qDiv_eq]
  simp [String.append_assoc]

/-- Witness for C9 at `previous = 100`, `today = 200`: the alert fires
and renders `2.00`, `100.0000`, `200.0000` in that order. -/
theorem claim_C9_alert_format_witness :
    ((0:ℚ) < 100 ∧ mkRat 3 2 ≤ (200:ℚ) / 100) ∧
      (∃ pre mid₁ mid₂ post : String,
        main_alert 100 200 =
          some (pre ++ fmtFixed ((200:ℚ) / 100) 2 ++ mid₁ ++
            fmtFixed 100 4 ++ mid₂ ++ fmtFixed 200 4 ++ post)) ∧
      main_alert 100 200 =
        some "🚨 AWS 비용 이상 감지!\n전일 대비 2.00배 증가\n어제: 100.0000 USD → 오늘: 200.0000 USD" :=
  ⟨⟨by norm_num, by rw [Rat.mkRat_eq_div]; norm_num⟩,
    claim_C9_alert_format 100 200 (by norm_num) (by rw [Rat.mkRat_eq_div]; norm_num),
    by decide⟩

theorem foldl_qAdd_eq (l : List CostGroup) (a : ℚ) :
    l.foldl (fun total g => qAdd total g.amount) a = a + (l.map CostGroup.amount).sum := by
  induction l generalizing a with
  | nil => simp
  | cons g gs ih =>
    rw [List.foldl_cons, ih, qAdd_eq, List.map_cons, List.sum_cons]
    ring

/-- Claim C10: `calculate_total_cost` returns `0.0` on an empty
`ResultsByTime` list, and otherwise the sum of the `UnblendedCost`
amounts of the groups of the first time period only — later periods
are ignored. -/
theorem claim_C10_calculate_total_cost (response : CEResponse) :
    (response.resultsByTime = [] → calculate_total_cost response = 0) ∧
    (∀ day rest, response.resultsByTime = day :: rest →
      calculate_total_cost response = (day.groups.map CostGroup.amount).sum ∧
      calculate_total_cost response = calculate_total_cost ⟨[day]⟩) := by
  constructor
  · intro h
    rw [calculate_total_cost, h]
  · intro day rest h
    have h1 : calculate_total_cost response =
        day.groups.foldl (fun total g => qAdd total g.amount) 0 := by
      rw [calculate_total_cost, h]
    have h2 : calculate_total_cost (⟨[day]⟩ : CEResponse) =
        day.groups.foldl (fun total g => qAdd total g.amount) 0 := rfl
    constructor
    · rw [h1, foldl_qAdd_eq, zero_add]
    · rw [h1, h2]

/-- Witness for C10: two time periods `[5, 7]` and `[100]`; the total
is `12`, the second period being ignored. -/
theorem claim_C10_calculate_total_cost_witness :
    ((⟨[⟨[⟨5⟩, ⟨7⟩]⟩, ⟨[⟨100⟩]⟩]⟩ : CEResponse).resultsByTime =
        ⟨[⟨5⟩, ⟨7⟩]⟩ :: [⟨[⟨100⟩]⟩]) ∧
      calculate_total_cost ⟨[⟨[⟨5⟩, ⟨7⟩]⟩, ⟨[⟨100⟩]⟩]⟩ =
        (([⟨5⟩, ⟨7⟩] : List CostGroup).map CostGroup.amount).sum ∧
      calculate_total_cost ⟨[⟨[⟨5⟩, ⟨7⟩]⟩, ⟨[⟨100⟩]⟩]⟩ =
        calculate_total_cost ⟨[⟨[⟨5⟩, ⟨7⟩]⟩]⟩ ∧
      calculate_total_cost ⟨[⟨[⟨5⟩, ⟨7⟩]⟩, ⟨[⟨100⟩]⟩]⟩ = 12 :=
  ⟨rfl,
    ((claim_C10_calculate_total_cost ⟨[⟨[⟨5⟩, ⟨7⟩]⟩, ⟨[⟨100⟩]⟩]⟩).2 ⟨[⟨5⟩, ⟨7⟩]⟩
      [⟨[⟨100⟩]⟩] rfl).1,
    ((claim_C10_calculate_total_cost ⟨[⟨[⟨5⟩, ⟨7⟩]⟩, ⟨[⟨100⟩]⟩]⟩).2 ⟨[⟨5⟩, ⟨7⟩]⟩
      [⟨[⟨100⟩]⟩] rfl).2,
    by decide⟩

/-- Claim C4: for every response whose `str(...)` rendering is
non-empty (true of every real Python object), the extraction chain —
(1) the `output_text` field, (2) the walk of the `output` items
joining every text fragment with newlines, (3) `str(response)` —
returns a non-empty string; it is a total function, so nothing throws
past this boundary. -/
theorem claim_C4_extract_nonempty (resp : GPTResponse) (h : resp.strRepr ≠ "") :
    extract_ai_text resp ≠ "" ∧
    (∀ t, resp.output_text = some t → t ≠ "" → extract_ai_text resp = t) ∧
    (resp.output_text = none → ∀ items, resp.output = some items →
      extractParts items ≠ [] → strTrim (joinSep "\n" (extractParts items)) ≠ "" →
      extract_ai_text resp = strTrim (joinSep "\n" (extractParts items))) ∧
    (resp.output_text = none → resp.output = none → extract_ai_text resp = resp.strRepr) := by
  have hstep : ∀ t, ai_text_opt resp = some t →
      extract_ai_text resp = if t = "" then resp.strRepr else t := by
    intro t hai
    rw [extract_ai_text, hai]
  refine ⟨?_, ?_, ?_, ?_⟩
  · cases hai : ai_text_opt resp with
    | none => rw [extract_ai_text, hai]; exact h
    | some t =>
      rw [hstep t hai]
      by_cases ht : t = ""
      · rw [if_pos ht]; exact h
      · rw [if_neg ht]; exact ht
  · intro t hot ht
    have hai : ai_text_opt resp = some t := by rw [ai_text_opt, hot]
    rw [hstep t hai, if_neg ht]
  · intro hot items ho hparts htrim
    have hitems : items.isEmpty = false := by
      cases items with
      | nil => exact absurd rfl hparts
      | cons _ _ => rfl
    have hpe : (extractParts items).isEmpty = false := by
      cases hp : extractParts items with
      | nil => exact absurd hp hparts
      | cons _ _ => rfl
    have hai : ai_text_opt resp = some (strTrim (joinSep "\n" (extractParts items))) := by
      rw [ai_text_opt, hot, ho]
      show (if items.isEmpty = true then none
        else if (extractParts items).isEmpty = true then none
        else some (strTrim (joinSep "\n" (extractParts items)))) =
          some (strTrim (joinSep "\n" (extractParts items)))
      rw [hitems, hpe]
      rfl
    rw [hstep _ hai, if_neg htrim]
  · intro hot ho
    have hai : ai_text_opt resp = none := by rw [ai_text_opt, hot, ho]
    rw [extract_ai_text, hai]

/-- Witness for C4: a response exposing no text field at all falls
back to its (non-empty) string rendering. -/
theorem claim_C4_extract_nonempty_witness :
    ("<Response object>" : String) ≠ "" ∧
      (extract_ai_text ⟨none, none, "<Response object>"⟩ ≠ "" ∧
        (∀ t, (none : Option String) = some t → t ≠ "" →
          extract_ai_text ⟨none, none, "<Response object>"⟩ = t) ∧
        ((none : Option String) = none → ∀ items,
          (none : Option (List OutItem)) = some items →
          extractParts items ≠ [] → strTrim (joinSep "\n" (extractParts items)) ≠ "" →
          extract_ai_text ⟨none, none, "<Response object>"⟩ =
            strTrim (joinSep "\n" (extractParts items))) ∧
        ((none : Option String) = none → (none : Option (List OutItem)) = none →
          extract_ai_text ⟨none, none, "<Response object>"⟩ = "<Response object>")) :=
  ⟨by decide, claim_C4_extract_nonempty ⟨none, none, "<Response object>"⟩ (by decide)⟩

/-- Claim C6: the prompt embeds the records sorted by their date field
ascending (a permutation of the input that is `RecordLe`-sorted); when
some record lacks a comparable date key, the records are embedded in
the original input order instead of the operation failing. -/
theorem claim_C6_sort_fallback (rows : List CostRecord) :
    (sortable rows = true →
      (sortRows rows).Perm rows ∧ List.Sorted RecordLe (sortRows rows) ∧
      ∀ costs, costsExtract (sortRows rows) = Except.ok costs →
        build_prompt rows = Except.ok (promptText (sortRows rows) (summaryStats costs))) ∧
    (sortable rows = false →
      sortRows rows = rows ∧
      ∀ costs, costsExtract rows = Except.ok costs →
        build_prompt rows = Except.ok (promptText rows (summaryStats costs))) := by
  constructor
  · intro h
    refine ⟨sortRows_perm rows, sortRows_sorted h, ?_⟩
    intro costs hc
    rw [build_prompt, hc]
  · intro h
    have hid : sortRows rows = rows := sortRows_unsortable h
    refine ⟨hid, ?_⟩
    intro costs hc
    rw [build_prompt, hid, hc]

/-- Witness for C6: a sortable two-record list is embedded
date-ascending, and a list mixing a numeric and a string date key is
embedded in input order. -/
theorem claim_C6_sort_fallback_witness :
    (sortable [⟨some (JVal.str "2025-01-02"), none, some (JVal.num 1)⟩,
        ⟨some (JVal.str "2025-01-01"), none, some (JVal.num 2)⟩] = true ∧
      build_prompt [⟨some (JVal.str "2025-01-02"), none, some (JVal.num 1)⟩,
          ⟨some (JVal.str "2025-01-01"), none, some (JVal.num 2)⟩] =
        Except.ok (promptText
          (sortRows [⟨some (JVal.str "2025-01-02"), none, some (JVal.num 1)⟩,
            ⟨some (JVal.str "2025-01-01"), none, some (JVal.num 2)⟩])
          (summaryStats [2, 1]))) ∧
    (sortable [⟨some (JVal.num 2), none, some (JVal.num 10)⟩,
        ⟨some (JVal.str "a"), none, none⟩] = false ∧
      sortRows [⟨some (JVal.num 2), none, some (JVal.num 10)⟩,
          ⟨some (JVal.str "a"), none, none⟩] =
        [⟨some (JVal.num 2), none, some (JVal.num 10)⟩, ⟨some (JVal.str "a"), none, none⟩] ∧
      build_prompt [⟨some (JVal.num 2), none, some (JVal.num 10)⟩,
          ⟨some (JVal.str "a"), none, none⟩] =
        Except.ok (promptText
          [⟨some (JVal.num 2), none, some (JVal.num 10)⟩, ⟨some (JVal.str "a"), none, none⟩]
          (summaryStats [10]))) :=
  ⟨⟨by decide,
    ((claim_C6_sort_fallback [⟨some (JVal.str "2025-01-02"), none, some (JVal.num 1)⟩,
        ⟨some (JVal.str "2025-01-01"), none, some (JVal.num 2)⟩]).1 (by decide)).2.2
      [2, 1] (by decide)⟩,
    ⟨by decide,
      ((claim_C6_sort_fallback [⟨some (JVal.num 2), none, some (JVal.num 10)⟩,
          ⟨some (JVal.str "a"), none, none⟩]).2 (by decide)).1,
      ((claim_C6_sort_fallback [⟨some (JVal.num 2), none, some (JVal.num 10)⟩,
          ⟨some (JVal.str "a"), none, none⟩]).2 (by decide)).2 [10] (by decide)⟩⟩

theorem sortable_perm {rows rows' : List CostRecord} (hp : rows'.Perm rows)
    (h : sortable rows = true) : sortable rows' = true := by
  simp only [sortable, Bool.or_eq_true, decide_eq_true_eq, List.all_eq_true] at h ⊢
  rcases h with h1 | h2
  · left
    rw [hp.length_eq]
    exact h1
  · right
    intro r hr r2 hr2
    exact h2 r (hp.mem_iff.mp hr) r2 (hp.mem_iff.mp hr2)

theorem sorted_perm_eq : ∀ {l₁ l₂ : List CostRecord}, l₁.Perm l₂ →
    List.Sorted RecordLe l₁ → List.Sorted RecordLe l₂ →
    (l₂.map dateKey).Nodup → l₁ = l₂ := by
  intro l₁
  induction l₁ with
  | nil =>
    intro l₂ hp _ _ _
    exact (hp.symm.eq_nil).symm
  | cons a t₁ ih =>
    intro l₂ hp hs₁ hs₂ hnd
    cases l₂ with
    | nil => exact absurd hp.eq_nil (by simp)
    | cons b t₂ =>
      have hab : a = b := by
        by_contra hne
        have ha2 : a ∈ b :: t₂ := hp.mem_iff.mp (List.mem_cons_self a t₁)
        have hb1 : b ∈ a :: t₁ := hp.mem_iff.mpr (List.mem_cons_self b t₂)
        have ha2' : a ∈ t₂ := by
          rcases List.mem_cons.mp ha2 with h | h
          · exact absurd h hne
          · exact h
        have hb1' : b ∈ t₁ := by
          rcases List.mem_cons.mp hb1 with h | h
          · exact absurd h.symm hne
          · exact h
        have hle1 : RecordLe a b := (List.sorted_cons.mp hs₁).1 b hb1'
        have hle2 : RecordLe b a := (List.sorted_cons.mp hs₂).1 a ha2'
        have hkey : dateKey a = dateKey b := keyLe_antisymm hle1 hle2
        have hmem : dateKey b ∈ t₂.map dateKey :=
          hkey ▸ List.mem_map_of_mem dateKey ha2'
        have hnotmem : dateKey b ∉ t₂.map dateKey := by
          rw [List.map_cons] at hnd
          exact (List.nodup_cons.mp hnd).1
        exact hnotmem hmem
      subst hab
      have hpt : t₁.Perm t₂ := hp.cons_inv
      have hndt : (t₂.map dateKey).Nodup := by
        rw [List.map_cons] at hnd
        exact (List.nodup_cons.mp hnd).2
      rw [ih hpt (List.sorted_cons.mp hs₁).2 (List.sorted_cons.mp hs₂).2 hndt]

/-- Counterexample to C7 as stated: two records sharing a date but
differing in service; the sort succeeds (string keys), yet the two
orderings of the same records yield different prompts, because the
stable sort preserves the input order of tied dates and the records
are serialized in that order. -/
theorem claim_C7_counterexample :
    sortable [⟨some (JVal.str "d"), some (JVal.str "A"), some (JVal.num 1)⟩,
        ⟨some (JVal.str "d"), some (JVal.str "B"), some (JVal.num 2)⟩] = true ∧
      List.Perm
        ([⟨some (JVal.str "d"), some (JVal.str "B"), some (JVal.num 2)⟩,
          ⟨some (JVal.str "d"), some (JVal.str "A"), some (JVal.num 1)⟩] : List CostRecord)
        ([⟨some (JVal.str "d"), some (JVal.str "A"), some (JVal.num 1)⟩,
          ⟨some (JVal.str "d"), some (JVal.str "B"), some (JVal.num 2)⟩] : List CostRecord) ∧
      build_prompt [⟨some (JVal.str "d"), some (JVal.str "B"), some (JVal.num 2)⟩,
          ⟨some (JVal.str "d"), some (JVal.str "A"), some (JVal.num 1)⟩] ≠
        build_prompt [⟨some (JVal.str "d"), some (JVal.str "A"), some (JVal.num 1)⟩,
          ⟨some (JVal.str "d"), some (JVal.str "B"), some (JVal.num 2)⟩] :=
  ⟨by decide, List.Perm.swap _ _ _, by decide⟩

/-- Claim C7, amended: when the date sort succeeds and the records'
date keys are pairwise distinct (no ties, so stability cannot leak the
input order), `build_prompt` yields the identical prompt on any
permutation of the list.  (With tied dates the claim fails — see the
counterexample: the stable sort keeps tied records in input order.) -/
theorem claim_C7_amended (rows rows' : List CostRecord)
    (hperm : rows'.Perm rows) (hsort : sortable rows = true)
    (hnodup : (rows.map dateKey).Nodup) :
    build_prompt rows' = build_prompt rows := by
  have hsort' : sortable rows' = true := sortable_perm hperm hsort
  have heq : sortRows rows' = sortRows rows := by
    apply sorted_perm_eq
    · exact ((sortRows_perm rows').trans hperm).trans (sortRows_perm rows).symm
    · exact sortRows_sorted hsort'
    · exact sortRows_sorted hsort
    · exact (((sortRows_perm rows).map dateKey).nodup_iff).mpr hnodup
  rw [build_prompt, build_prompt, heq]

/-- Witness for the amended C7: two records with distinct dates,
swapped, produce the same prompt. -/
theorem claim_C7_amended_witness :
    sortable [⟨some (JVal.str "2025-01-01"), some (JVal.str "A"), some (JVal.num 1)⟩,
        ⟨some (JVal.str "2025-01-02"), some (JVal.str "B"), some (JVal.num 2)⟩] = true ∧
      (([⟨some (JVal.str "2025-01-01"), some (JVal.str "A"), some (JVal.num 1)⟩,
        ⟨some (JVal.str "2025-01-02"), some (JVal.str "B"), some (JVal.num 2)⟩] :
          List CostRecord).map dateKey).Nodup ∧
      build_prompt [⟨some (JVal.str "2025-01-02"), some (JVal.str "B"), some (JVal.num 2)⟩,
          ⟨some (JVal.str "2025-01-01"), some (JVal.str "A"), some (JVal.num 1)⟩] =
        build_prompt [⟨some (JVal.str "2025-01-01"), some (JVal.str "A"), some (JVal.num 1)⟩,
          ⟨some (JVal.str "2025-01-02"), some (JVal.str "B"), some (JVal.num 2)⟩] :=
  ⟨by decide, by decide,
    claim_C7_amended
      [⟨some (JVal.str "2025-01-01"), some (JVal.str "A"), some (JVal.num 1)⟩,
        ⟨some (JVal.str "2025-01-02"), some (JVal.str "B"), some (JVal.num 2)⟩]
      [⟨some (JVal.str "2025-01-02"), some (JVal.str "B"), some (JVal.num 2)⟩,
        ⟨some (JVal.str "2025-01-01"), some (JVal.str "A"), some (JVal.num 1)⟩]
      (List.Perm.swap _ _ _) (by decide) (by decide)⟩

theorem dropLit_exact : ∀ lit rest : List Char, dropLit lit (lit ++ rest) = some rest := by
  intro lit
  induction lit with
  | nil => intro rest; rfl
  | cons l ls ih =>
    intro rest
    rw [List.cons_append, dropLit, if_pos rfl]
    exact ih rest

theorem parseField_spec (lit : List Char) (stop : Char) (tok rest : List Char)
    (htok : ∀ c ∈ tok, (fun c => decide (c ≠ stop)) c = true) :
    parseField lit stop (lit ++ (tok ++ stop :: rest)) = some (tok, stop :: rest) := by
  rcases takeWhile_middle (fun c => decide (c ≠ stop)) tok stop rest htok (by simp)
    with ⟨h1, h2⟩
  simp only [parseField, dropLit_exact, Option.map_some']
  rw [h1, h2]

theorem renderQ_chars {q : ℚ} {c : Char} (hc : c ∈ (renderQ q).data) :
    c = '-' ∨ c = '/' ∨ (48 ≤ c.toNat ∧ c.toNat ≤ 57) := by
  rw [renderQ] at hc
  by_cases hden : q.den = 1
  · rw [if_pos hden] at hc
    rcases intRepr_chars hc with h | h
    · exact Or.inl h
    · exact Or.inr (Or.inr h)
  · rw [if_neg hden, String.data_append, String.data_append] at hc
    rcases List.mem_append.mp hc with h | h
    · rcases List.mem_append.mp h with h1 | h1
      · rcases intRepr_chars h1 with h2 | h2
        · exact Or.inl h2
        · exact Or.inr (Or.inr h2)
      · have : c = '/' := by simpa using h1
        exact Or.inr (Or.inl this)
    · exact Or.inr (Or.inr (natRepr_chars h))

theorem natRepr_no_comma (n : ℕ) :
    ∀ c ∈ (natRepr n).data, (fun c => decide (c ≠ ',')) c = true := by
  intro c hc
  simp only [decide_eq_true_eq]
  have h := natRepr_chars hc
  intro he
  have h44 : c.toNat = 44 := by rw [he]; decide
  omega

theorem renderQ_no_comma (q : ℚ) :
    ∀ c ∈ (renderQ q).data, (fun c => decide (c ≠ ',')) c = true := by
  intro c hc
  simp only [decide_eq_true_eq]
  rcases renderQ_chars hc with h | h | h
  · subst h; decide
  · subst h; decide
  · intro he
    have h44 : c.toNat = 44 := by rw [he]; decide
    omega

theorem renderQ_no_newline (q : ℚ) :
    ∀ c ∈ (renderQ q).data, (fun c => decide (c ≠ '\n')) c = true := by
  intro c hc
  simp only [decide_eq_true_eq]
  rcases renderQ_chars hc with h | h | h
  · subst h; decide
  · subst h; decide
  · intro he
    have h10 : c.toNat = 10 := by rw [he]; decide
    omega

theorem parseField_lit (lit : List Char) (stop : Char) (tok : List Char)
    (nextlit nexttail : String) (hnext : nextlit.data = stop :: nexttail.data)
    (rest : List Char)
    (htok : ∀ c ∈ tok, (fun c => decide (c ≠ stop)) c = true) :
    parseField lit stop (lit ++ (tok ++ (nextlit.data ++ rest))) =
      some (tok, nextlit.data ++ rest) := by
  have h1 : nextlit.data ++ rest = stop :: (nexttail.data ++ rest) := by
    rw [hnext, List.cons_append]
  rw [h1]
  exact parseField_spec lit stop tok (nexttail.data ++ rest) htok

/-- The serialized statistics parse back to exactly the value that was
serialized (the round-trip property). -/
theorem parseStats_renderStats (s : SummaryStats) : parseStats (renderStats s) = some s := by
  have hd : (renderStats s).data =
      statsLit1.data ++ ((natRepr s.count).data ++ (statsLit2.data ++ ((renderQ s.total).data ++
        (statsLit3.data ++ ((renderQ s.mean).data ++ (statsLit4.data ++
          ((renderQ s.stdev_sq).data ++ statsLit5.data))))))) := by
    simp only [renderStats, String.data_append, List.append_assoc]
  have hL5 : statsLit5.data = '\n' :: ("\x7d" : String).data := rfl
  have step1 := parseField_lit statsLit1.data ',' (natRepr s.count).data
    statsLit2 "\n  \"total\": " rfl
    ((renderQ s.total).data ++ (statsLit3.data ++ ((renderQ s.mean).data ++
      (statsLit4.data ++ ((renderQ s.stdev_sq).data ++ statsLit5.data)))))
    (natRepr_no_comma s.count)
  have step2 := parseField_lit statsLit2.data ',' (renderQ s.total).data
    statsLit3 "\n  \"mean\": " rfl
    ((renderQ s.mean).data ++ (statsLit4.data ++ ((renderQ s.stdev_sq).data ++ statsLit5.data)))
    (renderQ_no_comma s.total)
  have step3 := parseField_lit statsLit3.data ',' (renderQ s.mean).data
    statsLit4 "\n  \"stdev\": " rfl
    ((renderQ s.stdev_sq).data ++ statsLit5.data)
    (renderQ_no_comma s.mean)
  have step4 : parseField statsLit4.data '\n'
      (statsLit4.data ++ ((renderQ s.stdev_sq).data ++ statsLit5.data)) =
      some ((renderQ s.stdev_sq).data, statsLit5.data) := by
    rw [hL5]
    exact parseField_spec statsLit4.data '\n' (renderQ s.stdev_sq).data ("\x7d" : String).data
      (renderQ_no_newline s.stdev_sq)
  rw [parseStats, hd]
  simp only [parseStatsChars, step1, step2, step3, step4, Option.some_bind]
  simp only [if_true]
  rw [parseNat_natRepr, parseRat_renderQ, parseRat_renderQ, parseRat_renderQ]

theorem str_empty_append (s : String) : "" ++ s = s := by
  obtain ⟨cs⟩ := s
  rfl

theorem str_append_empty (s : String) : s ++ "" = s := by
  obtain ⟨cs⟩ := s
  show String.mk (cs ++ []) = String.mk cs
  rw [List.append_nil]

theorem jsonEscapeChar_safe {c : Char} (h : jsonSafeChar c = true) : jsonEscapeChar c = [c] := by
  have h1 : c ≠ '"' := fun hc => by subst hc; exact absurd h (by decide)
  have h2 : c ≠ '\\' := fun hc => by subst hc; exact absurd h (by decide)
  have h3 : c ≠ '\n' := fun hc => by subst hc; exact absurd h (by decide)
  have h4 : c ≠ '\t' := fun hc => by subst hc; exact absurd h (by decide)
  have h5 : c ≠ '\r' := fun hc => by subst hc; exact absurd h (by decide)
  rw [jsonEscapeChar, if_neg h1, if_neg h2, if_neg h3, if_neg h4, if_neg h5]

theorem jsonEscape_eq_self {s : String} (h : jsonSafe s = true) : jsonEscape s = s := by
  obtain ⟨cs⟩ := s
  rw [jsonSafe, List.all_eq_true] at h
  rw [jsonEscape]
  have gen : ∀ ds : List Char, (∀ c ∈ ds, jsonSafeChar c = true) →
      ds.flatMap jsonEscapeChar = ds := by
    intro ds hds
    induction ds with
    | nil => rfl
    | cons c ds ih =>
      rw [List.flatMap_cons, jsonEscapeChar_safe (hds c (List.mem_cons_self _ _)),
        ih (fun x hx => hds x (List.mem_cons_of_mem _ hx))]
      rfl
  exact congrArg String.mk (gen cs h)

theorem strContains_trans {s t u : String} (hst : StrContains s t) (htu : StrContains t u) :
    StrContains s u := by
  obtain ⟨a, b, rfl⟩ := hst
  obtain ⟨c, d, rfl⟩ := htu
  exact ⟨a ++ c, d ++ b, by simp [String.append_assoc]⟩

theorem joinSep_mem (sep : String) : ∀ (l : List String) (x : String), x ∈ l →
    ∃ a b : String, joinSep sep l = a ++ x ++ b := by
  intro l
  induction l with
  | nil => intro x hx; simp at hx
  | cons y ys ih =>
    intro x hx
    rcases List.mem_cons.mp hx with rfl | hmem
    · cases ys with
      | nil =>
        refine ⟨"", "", ?_⟩
        rw [joinSep, str_empty_append, str_append_empty]
      | cons z zs =>
        refine ⟨"", sep ++ joinSep sep (z :: zs), ?_⟩
        rw [joinSep, str_empty_append, String.append_assoc]
        simp
    · cases ys with
      | nil => simp at hmem
      | cons z zs =>
        obtain ⟨a, b, hab⟩ := ih x hmem
        refine ⟨y ++ sep ++ a, b, ?_⟩
        rw [joinSep, hab]
        · simp [String.append_assoc]
        · simp

theorem renderRecord_contains_service {r : CostRecord} {sv : String}
    (hsv : r.service = some (JVal.str sv)) (hsafe : jsonSafe sv = true) :
    StrContains (renderRecord r) sv := by
  have hfield : ("\"service\": " ++ renderJVal (JVal.str sv)) ∈ recordFields r := by
    rw [recordFields, hsv]
    simp
  have hne : recordFields r ≠ [] := List.ne_nil_of_mem hfield
  have hemp : (recordFields r).isEmpty = false := by
    cases hrf : recordFields r with
    | nil => exact absurd hrf hne
    | cons _ _ => rfl
  obtain ⟨a, b, hab⟩ := joinSep_mem ",\n    " (recordFields r) _ hfield
  have hsvdec : StrContains ("\"service\": " ++ renderJVal (JVal.str sv)) sv := by
    refine ⟨"\"service\": " ++ "\"", "\"", ?_⟩
    rw [renderJVal, jsonEscape_eq_self hsafe]
    simp only [String.append_assoc]
  have houter : StrContains (renderRecord r) ("\"service\": " ++ renderJVal (JVal.str sv)) := by
    rw [renderRecord, if_neg (by rw [hemp]; simp)]
    exact ⟨"\x7b\n    " ++ a, b ++ "\n  \x7d", by rw [hab]; simp [String.append_assoc]⟩
  exact strContains_trans houter hsvdec

theorem renderRows_contains_record {rs : List CostRecord} {r : CostRecord} (hr : r ∈ rs) :
    StrContains (renderRows rs) (renderRecord r) := by
  have hne : rs ≠ [] := List.ne_nil_of_mem hr
  have hemp : rs.isEmpty = false := by
    cases hrs : rs with
    | nil => exact absurd hrs hne
    | cons _ _ => rfl
  obtain ⟨a, b, hab⟩ :=
    joinSep_mem ",\n  " (rs.map renderRecord) _ (List.mem_map_of_mem renderRecord hr)
  rw [renderRows, if_neg (by rw [hemp]; simp)]
  exact ⟨"[\n  " ++ a, b ++ "\n]", by rw [hab]; simp [String.append_assoc]⟩

theorem promptText_contains_rows (rs : List CostRecord) (st : SummaryStats) :
    StrContains (promptText rs st) (renderRows rs) :=
  ⟨promptHeader, promptMid ++ renderStats st ++ promptFooter, by
    rw [promptText]
    simp [String.append_assoc]⟩

/-- Claim C8: the prompt returned by `build_prompt` contains every
input record's (JSON-safe) service identifier verbatim, and embeds the
serialized summary statistics such that parsing the embedded block
yields back exactly the computed statistics value (count, total, mean
and the stdev-determining `stdev_sq`). -/
theorem claim_C8_prompt_roundtrip (rows : List CostRecord) (p : String)
    (hp : build_prompt rows = Except.ok p) :
    (∀ r ∈ rows, ∀ sv : String, r.service = some (JVal.str sv) → jsonSafe sv = true →
      StrContains p sv) ∧
    (∃ stats pre post, build_stats rows = Except.ok stats ∧
      p = pre ++ renderStats stats ++ post ∧
      parseStats (renderStats stats) = some stats) := by
  have h' : ∃ costs, costsExtract (sortRows rows) = Except.ok costs ∧
      p = promptText (sortRows rows) (summaryStats costs) := by
    rw [build_prompt] at hp
    cases hce : costsExtract (sortRows rows) with
    | error e => rw [hce] at hp; exact absurd hp (by simp)
    | ok costs => rw [hce] at hp; exact ⟨costs, rfl, (Except.ok.inj hp).symm⟩
  obtain ⟨costs, hce, rfl⟩ := h'
  constructor
  · intro r hr sv hsv hsafe
    have hr' : r ∈ sortRows rows := (sortRows_perm rows).mem_iff.mpr hr
    exact strContains_trans (strContains_trans (promptText_contains_rows _ _)
      (renderRows_contains_record hr')) (renderRecord_contains_service hsv hsafe)
  · refine ⟨summaryStats costs, promptHeader ++ renderRows (sortRows rows) ++ promptMid,
      promptFooter, ?_, ?_, parseStats_renderStats _⟩
    · rw [build_stats, hce]
    · rw [promptText]

/-- Witness for C8: a one-record list with service `AmazonEC2`; its
prompt contains the service name and its embedded statistics block
parses back to the stats. -/
theorem claim_C8_prompt_roundtrip_witness :
    ∃ p, build_prompt
        [⟨some (JVal.str "2025-01-01"), some (JVal.str "AmazonEC2"), some (JVal.num 10)⟩] =
        Except.ok p ∧
      StrContains p "AmazonEC2" ∧
      (∃ stats pre post, build_stats
          [⟨some (JVal.str "2025-01-01"), some (JVal.str "AmazonEC2"), some (JVal.num 10)⟩] =
          Except.ok stats ∧
        p = pre ++ renderStats stats ++ post ∧
        parseStats (renderStats stats) = some stats) := by
  cases hbp : build_prompt
      [⟨some (JVal.str "2025-01-01"), some (JVal.str "AmazonEC2"), some (JVal.num 10)⟩] with
  | error e =>
    exfalso
    have hok : (build_prompt
        [⟨some (JVal.str "2025-01-01"), some (JVal.str "AmazonEC2"),
          some (JVal.num 10)⟩]).isOk = true := by decide
    rw [hbp] at hok
    simp [Except.isOk, Except.toBool] at hok
  | ok p =>
    have hmain := claim_C8_prompt_roundtrip _ p hbp
    exact ⟨p, rfl,
      hmain.1 _ (List.mem_cons_self _ _) "AmazonEC2" rfl (by decide), hmain.2⟩
